import Mathlib

/-! Shallow embedding of the coding-agent chat server (main.ts): the response
parser, the in-memory project store, the process supervisor and the build/run
orchestration, together with theorems checking the specification claims
C1 to C10 against these definitions. -/

namespace AgentModel

/-- Decidable equality for Except results, so that concrete evaluations of
the fallible operations can be checked by the kernel. -/
instance {ε α : Type} [DecidableEq ε] [DecidableEq α] :
    DecidableEq (Except ε α) := fun a b =>
  match a, b with
  | .error e1, .error e2 =>
    if h : e1 = e2 then isTrue (by rw [h])
    else isFalse (fun hh => h (Except.error.inj hh))
  | .error _, .ok _ => isFalse (fun hh => Except.noConfusion hh)
  | .ok _, .error _ => isFalse (fun hh => Except.noConfusion hh)
  | .ok a1, .ok a2 =>
    if h : a1 = a2 then isTrue (by rw [h])
    else isFalse (fun hh => h (Except.ok.inj hh))

/-! ## Response parser

The source extracts file blocks with the regular expression
(three backticks)(\w+)?:?(.*?)\n([\s\S]*?)(three backticks), executed
repeatedly with a global flag.  Because the lazy groups stop at the first
newline after the opening fence and at the first closing fence after that
newline, the global scan is equivalent to: find the first fence, take the
header up to the first newline, take the interior up to the next fence, and
continue after it.  The functions below implement exactly that scan over the
character list of the response. -/

/-- The backtick character that delimits fenced code blocks. -/
def fenceChar : Char := Char.ofNat 96

/-- JavaScript word character class \w, restricted to ASCII as in the source. -/
def isWordChar (c : Char) : Bool := c.isAlpha || c.isDigit || c = '_'

/-- ASCII whitespace recognized by JavaScript String.prototype.trim. -/
def jsWhitespace (c : Char) : Bool :=
  c = ' ' || c = '\t' || c = '\n' || c = '\r' || c = '\x0b' || c = '\x0c'

/-- JavaScript String.prototype.trim on a character list: drop leading and
trailing whitespace. -/
def jsTrim (l : List Char) : List Char :=
  ((l.dropWhile jsWhitespace).reverse.dropWhile jsWhitespace).reverse

/-- Whether the list starts with a three-backtick fence. -/
def startsFence : List Char → Bool
  | c1 :: c2 :: c3 :: _ => c1 = fenceChar && c2 = fenceChar && c3 = fenceChar
  | _ => false

/-- Split at the first three-backtick fence: returns the text before the fence
and the text after it, or none when no fence occurs. -/
def splitFence : List Char → Option (List Char × List Char)
  | [] => none
  | c :: cs =>
    if startsFence (c :: cs) then some ([], cs.drop 2)
    else (splitFence cs).map (fun pr => (c :: pr.1, pr.2))

/-- Split at the first newline: text before it and text after it. -/
def splitNewline : List Char → Option (List Char × List Char)
  | [] => none
  | c :: cs =>
    if c = '\n' then some ([], cs)
    else (splitNewline cs).map (fun pr => (c :: pr.1, pr.2))

/-- Longest prefix of word characters, with the remainder: the greedy
match of the optional group (\w+)? in the block header. -/
def takeWord : List Char → List Char × List Char
  | [] => ([], [])
  | c :: cs =>
    if isWordChar c then
      let pr := takeWord cs
      (c :: pr.1, pr.2)
    else ([], c :: cs)

/-- Parse a block header line: optional language word, optional colon, rest is
the raw file path.  An absent language group defaults to "text" exactly as
match one or-else text does in the source. -/
def parseHeader (h : List Char) : String × List Char :=
  let pr := takeWord h
  let language := if pr.1 = [] then "text" else String.mk pr.1
  match pr.2 with
  | ':' :: r => (language, r)
  | r => (language, r)

/-- One step of the global regex scan per unit of fuel: each match consumes at
least the opening fence, so fuel equal to the input length always suffices. -/
def scanBlocksAux : Nat → List Char → List (String × List Char × List Char)
  | 0, _ => []
  | fuel + 1, s =>
    match splitFence s with
    | none => []
    | some pr1 =>
      match splitNewline pr1.2 with
      | none => []
      | some pr2 =>
        match splitFence pr2.2 with
        | none => []
        | some pr3 =>
          let hd := parseHeader pr2.1
          (hd.1, hd.2, pr3.1) :: scanBlocksAux fuel pr3.2

/-- All fenced blocks of a response, in order: language tag, raw header path
and raw interior, exactly the successive matches of the file pattern. -/
def scanBlocks (s : List Char) : List (String × List Char × List Char) :=
  scanBlocksAux s.length s

/-- ASCII lowercase of a character, as toLowerCase acts on the language tags
that occur in block headers. -/
def lowerChar (c : Char) : Char :=
  if 65 ≤ c.toNat && c.toNat ≤ 90 then Char.ofNat (c.toNat + 32) else c

/-- JavaScript String.prototype.toLowerCase, restricted to ASCII. -/
def toLowerAscii (s : String) : String := String.mk (s.data.map lowerChar)

/-- A JavaScript value that the language lookup can produce: either a string,
or one of the truthy non-string objects that bracket lookup on the langMap
object literal reaches through the prototype chain.  Lookup happens after
toLowerCase, so the reachable inherited Object.prototype properties are
exactly the two whose names are entirely lowercase: constructor (the Object
constructor function) and the string at index zero of the pair below,
double-underscore proto double-underscore (the Object.prototype accessor);
every other inherited name (hasOwnProperty, toString, valueOf and the getter
and setter helpers) contains an uppercase letter and is unreachable. -/
inductive LangValue where
  | str (s : String)
  | inheritedObject (key : String)
deriving DecidableEq

/-- ProjectFile record from the source.  The language field holds whatever
normalizeLanguage returned, which at runtime is not always a string. -/
structure ProjectFile where
  name : String
  path : String
  content : String
  language : LangValue
deriving DecidableEq

/-- normalizeLanguage from the source: the bracket lookup langMap of the
lowercased tag, or-else the string text.  The chained comparisons enumerate
the own keys of the object literal first (own properties shadow the
prototype), then the two lowercase inherited Object.prototype properties,
whose truthy object values the or-else keeps; everything else is undefined
and falls back to text. -/
def normalizeLanguage (lang : String) : LangValue :=
  let l := toLowerAscii lang
  if l = "js" then .str "javascript"
  else if l = "javascript" then .str "javascript"
  else if l = "ts" then .str "typescript"
  else if l = "typescript" then .str "typescript"
  else if l = "py" then .str "python"
  else if l = "python" then .str "python"
  else if l = "json" then .str "json"
  else if l = "html" then .str "html"
  else if l = "css" then .str "css"
  else if l = "md" then .str "markdown"
  else if l = "constructor" then .inheritedObject "constructor"
  else if l = "__proto__" then .inheritedObject "__proto__"
  else .str "text"

/-- Calling normalizeLanguage on an arbitrary JavaScript value, as composing
the normalizer with itself requires: on a string it runs the lookup; on one of
the inherited objects the toLowerCase call inside throws a TypeError, because
neither a function nor Object.prototype has a toLowerCase method. -/
def normalizeLanguageVal : LangValue → Except String LangValue
  | .str s => .ok (normalizeLanguage s)
  | .inheritedObject _ => .error "TypeError"

/-- JavaScript String.prototype.split with a single-character separator. -/
def splitOnChar (sep : Char) : List Char → List (List Char)
  | [] => [[]]
  | c :: cs =>
    if c = sep then [] :: splitOnChar sep cs
    else
      match splitOnChar sep cs with
      | [] => [[c]]
      | p :: ps => (c :: p) :: ps

/-- filePath.split(slash).pop() or-else filePath from the source: the last
path component, falling back to the whole path when that component is empty. -/
def basename (p : List Char) : List Char :=
  match (splitOnChar '/' p).getLast? with
  | some last => if last = [] then p else last
  | none => p

/-- The while loop of parseFilesFromResponse: for each match, trim the path
and the content and push a file exactly when both are non-empty. -/
def parseLoop : List (String × List Char × List Char) → List ProjectFile → List ProjectFile
  | [], files => files
  | m :: ms, files =>
    let language := m.1
    let filePath := jsTrim m.2.1
    let fileContent := jsTrim m.2.2
    if filePath ≠ [] ∧ fileContent ≠ [] then
      parseLoop ms (files ++ [{ name := String.mk (basename filePath),
                                path := String.mk filePath,
                                content := String.mk fileContent,
                                language := normalizeLanguage language }])
    else
      parseLoop ms files

/-- parseFilesFromResponse from the source: run the global regex scan and the
accumulating while loop. -/
def parseFilesFromResponse (response : String) : List ProjectFile :=
  parseLoop (scanBlocks response.data) []

/-- Specification-side description of the parser (from the spec text): every
fenced block whose trimmed path and trimmed interior are both non-empty yields
exactly one file with that trimmed path, the trimmed interior as content and
the normalized language tag, in block order; all other blocks are excluded. -/
def parsedFilesSpec (response : String) : List ProjectFile :=
  ((scanBlocks response.data).filter
      (fun b => jsTrim b.2.1 ≠ [] ∧ jsTrim b.2.2 ≠ [])).map
    (fun b => { name := String.mk (basename (jsTrim b.2.1)),
                path := String.mk (jsTrim b.2.1),
                content := String.mk (jsTrim b.2.2),
                language := normalizeLanguage b.1 })

/-! ## Project store and process supervisor state

The mutable module-level state of the server: the projects array, the
runningProcesses map of the service, and the nextPort counter.  The killed
field records the process ids that have received a termination signal; it is
bookkeeping for the embedding, not a variable of the source.  Timestamps and
generated random ids are external inputs: created is stored as an opaque
string and fresh ids are passed in as parameters. -/

/-- Project record from the source.  The status field holds one of the string
literals created, building, running, error, stopped. -/
structure Project where
  id : String
  name : String
  description : String
  language : String
  status : String
  created : String
  path : String
  files : List ProjectFile
  currentFile : Option String := none
  lastOutput : Option String := none
  port : Option Nat := none
deriving DecidableEq

/-- Whole-server state: the projects listing, the runningProcesses map
(association list keyed by project id holding a process id), the signal log
and the nextPort counter. -/
structure SysState where
  projects : List Project
  running : List (String × Nat)
  killed : List Nat
  nextPort : Nat
deriving DecidableEq

/-- Initial module state: empty listings and nextPort 3001. -/
def initState : SysState :=
  { projects := [], running := [], killed := [], nextPort := 3001 }

/-- projects.find on an id: the first project with that id, as in the source
lookups. -/
def findProject (s : SysState) (projectId : String) : Option Project :=
  s.projects.find? (fun p => p.id == projectId)

/-- Mutating the object returned by projects.find updates the first project
with the given id in place; later elements are untouched. -/
def updateFirstProject : List Project → String → (Project → Project) → List Project
  | [], _, _ => []
  | p :: ps, projectId, f =>
    if p.id == projectId then f p :: ps
    else p :: updateFirstProject ps projectId f

/-- Map.get on the runningProcesses association list. -/
def lookupRunning (m : List (String × Nat)) (projectId : String) : Option Nat :=
  (m.find? (fun e => e.1 == projectId)).map (fun e => e.2)

/-- Map.delete on the runningProcesses association list: the map holds at most
one entry per key, so removing the first occurrence is removal of the key. -/
def removeRunning : List (String × Nat) → String → List (String × Nat)
  | [], _ => []
  | e :: rest, projectId =>
    if e.1 == projectId then rest else e :: removeRunning rest projectId

/-- Map.set on the runningProcesses association list: replace in place or
append. -/
def setRunning : List (String × Nat) → String → Nat → List (String × Nat)
  | [], projectId, procId => [(projectId, procId)]
  | e :: rest, projectId, procId =>
    if e.1 == projectId then (projectId, procId) :: rest
    else e :: setRunning rest projectId procId

/-- project.status assignment through the listing. -/
def setStatus (s : SysState) (projectId st : String) : SysState :=
  { s with projects := (updateFirstProject s.projects projectId
      (fun p => { p with status := st })) }

/-- project.port assignment through the listing. -/
def setPort (s : SysState) (projectId : String) (port : Option Nat) : SysState :=
  { s with projects := (updateFirstProject s.projects projectId
      (fun p => { p with port := port })) }

/-- project.lastOutput assignment through the listing. -/
def setLastOutput (s : SysState) (projectId : String) (out : Option String) : SysState :=
  { s with projects := (updateFirstProject s.projects projectId
      (fun p => { p with lastOutput := out })) }

/-- Observed status of a project. -/
def statusOf (s : SysState) (projectId : String) : Option String :=
  (findProject s projectId).map (fun p => p.status)

/-! ## Store operations -/

/-- generateProjectName from the source: first three space-separated words of
the prompt joined with dashes, lowercased, with characters outside a-z, 0-9
and dash removed, falling back to new-project when the result is empty. -/
def generateProjectName (prompt : String) : String :=
  let parts := (splitOnChar ' ' prompt.data).take 3
  let joined := (List.intercalate ['-'] parts).map lowerChar
  let cleaned := joined.filter (fun c => c.isLower || c.isDigit || c = '-')
  if cleaned = [] then "new-project" else String.mk cleaned

/-- detectPrimaryLanguage from the source: priority order typescript,
javascript, python, default javascript. -/
def detectPrimaryLanguage (files : List ProjectFile) : String :=
  let languages := files.map (fun f => f.language)
  if languages.contains (LangValue.str "typescript") then "typescript"
  else if languages.contains (LangValue.str "javascript") then "javascript"
  else if languages.contains (LangValue.str "python") then "python"
  else "javascript"

/-- The per-file update step of the existing-project branch: findIndex on the
path, replace the found entry in place, otherwise push at the end. -/
def upsertFile : List ProjectFile → ProjectFile → List ProjectFile
  | [], nf => [nf]
  | f :: fs, nf =>
    if f.path == nf.path then nf :: fs
    else f :: upsertFile fs nf

/-- createOrUpdateProject from the source.  The existing project argument is
passed by reference in the source and resolved here by id; newId stands for
the random generateId value of the create branch.  The second component lists
the on-disk writes the call performs, as full-target-path and content pairs;
directory creation and write errors (logged and swallowed in the source) are
not modeled. -/
def createOrUpdateProject (s : SysState) (files : List ProjectFile)
    (prompt : String) (existingId : Option String) (newId : String) :
    SysState × List (String × String) :=
  match existingId with
  | some projectId =>
    match findProject s projectId with
    | none => (s, [])
    | some proj =>
      let writes := files.map (fun f => (proj.path ++ "/" ++ f.path, f.content))
      ({ s with projects := (updateFirstProject s.projects projectId
          (fun p => { p with files := files.foldl upsertFile p.files })) },
        writes)
  | none =>
    let projectPath := "./projects/" ++ newId
    let writes := files.map (fun f => (projectPath ++ "/" ++ f.path, f.content))
    let proj : Project :=
      { id := newId
        name := generateProjectName prompt
        description := "Project generated from: " ++ prompt
        language := detectPrimaryLanguage files
        status := "created"
        created := ""
        path := projectPath
        files := files }
    ({ s with projects := proj :: s.projects }, writes)

/-- updateFileContent from the source: NotFound when the project id is absent;
otherwise one unconditional on-disk write to path-concatenation target, and an
in-memory content update of the first tracked file with that path, if any. -/
def updateFileContent (s : SysState) (projectId filePath content : String) :
    SysState × Except String (String × String) :=
  match findProject s projectId with
  | none => (s, .error "Project not found")
  | some proj =>
    ({ s with projects := (updateFirstProject s.projects projectId
        (fun p => { p with files := setFirstContent p.files filePath content })) },
      .ok (proj.path ++ "/" ++ filePath, content))
where
  /-- files.find on the path followed by a content assignment on the found
  object: update the first matching entry, leave everything else unchanged. -/
  setFirstContent : List ProjectFile → String → String → List ProjectFile
    | [], _, _ => []
    | f :: fs, path, content =>
      if f.path == path then { f with content := content } :: fs
      else f :: setFirstContent fs path content

/-- stopProject from the source: NotFound when the id is absent; otherwise
kill and deregister the running process when one is registered (signal
delivery is modeled as succeeding; a delivery failure is caught and logged in
the source), and always set the status to stopped. -/
def stopProject (s : SysState) (projectId : String) :
    SysState × Except String String :=
  match findProject s projectId with
  | none => (s, .error "Project not found")
  | some _ =>
    let s1 :=
      match lookupRunning s.running projectId with
      | some procId =>
        { s with killed := s.killed ++ [procId],
                 running := removeRunning s.running projectId }
      | none => s
    (setStatus s1 projectId "stopped", .ok "Project stopped")

/-- BuildOutcome abstracts the external effects of the try block of
buildProject (stat calls and installer processes): either the accumulated
installer output, or an exception reaching the outer catch. -/
inductive BuildOutcome where
  | success (out : String)
  | failure (msg : String)
deriving DecidableEq

/-- buildProject from the source: NotFound when the id is absent; otherwise
set status building, run the language-conditional install steps, and finish
with status created and the output on success, or status error and a thrown
error on failure.  The middle component records the successive status
assignments the call makes to the project. -/
def buildProject (s : SysState) (projectId : String) (outcome : BuildOutcome) :
    SysState × List String × Except String String :=
  match findProject s projectId with
  | none => (s, [], .error "Project not found")
  | some _ =>
    let s1 := setStatus s projectId "building"
    match outcome with
    | .success out =>
      (setStatus s1 projectId "created", ["building", "created"],
        .ok (if out = "" then "Build completed (no dependencies to install)" else out))
    | .failure msg =>
      (setStatus s1 projectId "error", ["building", "error"], .error msg)

/-- Substring test used for the main-file lookup (name.includes in the
source). -/
def includesSub (hay needle : List Char) : Bool :=
  match hay with
  | [] => needle.isEmpty
  | _ :: t => needle.isPrefixOf hay || includesSub t needle

/-- The file whose name includes index or main, in file order. -/
def findMainFile (files : List ProjectFile) : Option ProjectFile :=
  files.find? (fun f =>
    includesSub f.name.data "index".data || includesSub f.name.data "main".data)

/-- Command selection of runProject (the non-windows branches); hasPkg stands
for the Deno.stat probe of package.json. -/
def chooseCommand (proj : Project) (hasPkg : Bool) : List String :=
  if proj.language = "javascript" then
    if hasPkg then ["sh", "-c", "npm start"]
    else
      let mainFile := (findMainFile proj.files).orElse (fun _ => proj.files.head?)
      ["node", (mainFile.map (fun f => f.path)).getD "index.js"]
  else if proj.language = "typescript" then ["deno", "run", "--allow-net", "index.ts"]
  else if proj.language = "python" then ["python", "main.py"]
  else ["node", ((findMainFile proj.files).map (fun f => f.path)).getD "index.js"]

/-- Startup summary written to lastOutput by runProject. -/
def runSummary (port : Nat) (cmd : List String) : String :=
  "Project started on port " ++ toString port ++ " with command " ++
    String.intercalate " " cmd

/-- runProject from the source: NotFound when the id is absent; otherwise stop
any process registered for the id, set status running, take the next port from
the counter and store it on the project, then spawn (spawnOk abstracts spawn
success); on success register the process (identified here by its port),
overwrite lastOutput with the startup summary and return it with the port; on
spawn failure set status error and rethrow.  The middle component records the
port values taken from the counter.  The asynchronous output capture of the
spawned process is external and not modeled. -/
def runProject (s : SysState) (projectId : String) (hasPkg spawnOk : Bool) :
    SysState × List Nat × Except String (String × Nat) :=
  match findProject s projectId with
  | none => (s, [], .error "Project not found")
  | some proj =>
    let s0 := if (lookupRunning s.running projectId).isSome
      then (stopProject s projectId).1 else s
    let s1 := setStatus s0 projectId "running"
    let port := s1.nextPort
    let s2 := { s1 with nextPort := port + 1 }
    let s3 := setPort s2 projectId (some port)
    let cmd := chooseCommand proj hasPkg
    if spawnOk then
      let s4 := { s3 with running := setRunning s3.running projectId port }
      let out := runSummary port cmd
      (setLastOutput s4 projectId (some out), [port], .ok (out, port))
    else
      (setStatus s3 projectId "error", [port], .error "spawn failed")

/-- The delete route handler: filter the project out of the listing first,
then call stopProject on the already-filtered state, discarding its outcome
(the rejection is caught and logged). -/
def deleteRoute (s : SysState) (projectId : String) : SysState :=
  let s1 := { s with projects := s.projects.filter (fun p => !(p.id == projectId)) }
  (stopProject s1 projectId).1

/-! ## Path resolution, for the containment claim -/

/-- Lexical resolution of a slash-separated path: dot and empty segments are
dropped, dot-dot pops the last kept segment. -/
def resolveSegs (segs : List String) : List String :=
  segs.foldl (fun acc seg =>
    if seg = ".." then acc.dropLast
    else if seg = "." || seg = "" then acc
    else acc ++ [seg]) []

/-- Resolve a path string to its canonical segment list. -/
def resolvePath (p : String) : List String :=
  resolveSegs ((splitOnChar '/' p.data).map String.mk)

/-- A target escapes a directory when the resolved directory is not a prefix
of the resolved target. -/
def escapesDir (root target : String) : Bool :=
  !(List.isPrefixOf (resolvePath root) (resolvePath target))

/-! ## Operation sequences, for the port-monotonicity claim -/

/-- The API operations that touch the shared state, with the external inputs
(fresh ids, stat probes, spawn and build outcomes) as parameters. -/
inductive Op where
  | create (newId : String) (files : List ProjectFile) (prompt : String)
  | update (projectId : String) (files : List ProjectFile) (prompt : String)
  | run (projectId : String) (hasPkg spawnOk : Bool)
  | stop (projectId : String)
  | build (projectId : String) (outcome : BuildOutcome)
  | del (projectId : String)
  | putFile (projectId path content : String)

/-- One request against the server state; the second component lists the port
values assigned during the request. -/
def step (s : SysState) : Op → SysState × List Nat
  | .create newId files prompt =>
    ((createOrUpdateProject s files prompt none newId).1, [])
  | .update projectId files prompt =>
    ((createOrUpdateProject s files prompt (some projectId) projectId).1, [])
  | .run projectId hasPkg spawnOk =>
    let r := runProject s projectId hasPkg spawnOk
    (r.1, r.2.1)
  | .stop projectId => ((stopProject s projectId).1, [])
  | .build projectId outcome => ((buildProject s projectId outcome).1, [])
  | .del projectId => (deleteRoute s projectId, [])
  | .putFile projectId path content =>
    ((updateFileContent s projectId path content).1, [])

/-- Fold a request sequence over the state, accumulating the assigned ports in
order. -/
def runOpsAux : SysState → List Op → List Nat → SysState × List Nat
  | s, [], acc => (s, acc)
  | s, op :: ops, acc =>
    let r := step s op
    runOpsAux r.1 ops (acc ++ r.2)

/-- Run a request sequence from a state; the second component is the
chronological list of all assigned ports. -/
def runOps (s : SysState) (ops : List Op) : SysState × List Nat :=
  runOpsAux s ops []

/-- The deregistration-and-kill step of stopProject when a process is
registered, as a standalone function for the statements below. -/
def killStep (s : SysState) (projectId : String) (procId : Nat) : SysState :=
  { s with killed := s.killed ++ [procId],
           running := removeRunning s.running projectId }

/-- The body of one iteration of the parse loop as an optional file, used to
state the loop characterization. -/
def keepBlock (m : String × List Char × List Char) : Option ProjectFile :=
  if jsTrim m.2.1 ≠ [] ∧ jsTrim m.2.2 ≠ [] then
    some { name := String.mk (basename (jsTrim m.2.1)),
           path := String.mk (jsTrim m.2.1),
           content := String.mk (jsTrim m.2.2),
           language := normalizeLanguage m.1 }
  else none

/-- Concrete file for the evaluation states. -/
def demoFile : ProjectFile :=
  { name := "index.js", path := "index.js", content := "old",
    language := .str "javascript" }

/-- Concrete parsed file whose relative path climbs out of the project
directory with dot-dot segments. -/
def escFile : ProjectFile :=
  { name := "passwd", path := "../../etc/passwd", content := "boom",
    language := .str "text" }

/-- Concrete project with a live process, for the evaluation states. -/
def demoProject : Project :=
  { id := "p1", name := "demo", description := "", language := "javascript",
    status := "running", created := "", path := "./projects/p1",
    files := [demoFile], currentFile := none, lastOutput := none,
    port := some 3001 }

/-- Concrete server state in which project p1 is running with process 3001. -/
def demoState : SysState :=
  { projects := [demoProject], running := [("p1", 3001)], killed := [],
    nextPort := 3002 }

/-- Concrete agent response with one valid block whose interior has leading
and trailing whitespace. -/
def demoResponse : String := "```js:a.js\n hi \n```"

/-! ## Parser lemmas and claims C1, C10, C4 -/

lemma parseLoop_eq (ms : List (String × List Char × List Char)) :
    ∀ acc, parseLoop ms acc = acc ++ ms.filterMap keepBlock := by
  induction ms with
  | nil => intro acc; simp [parseLoop]
  | cons m ms ih =>
    intro acc
    by_cases h : jsTrim m.2.1 ≠ [] ∧ jsTrim m.2.2 ≠ []
    · simp [parseLoop, h, keepBlock, ih, List.filterMap_cons]
    · simp [parseLoop, h, keepBlock, ih, List.filterMap_cons]

lemma filterMap_keepBlock (l : List (String × List Char × List Char)) :
    l.filterMap keepBlock =
      (l.filter (fun b => jsTrim b.2.1 ≠ [] ∧ jsTrim b.2.2 ≠ [])).map
        (fun b => { name := String.mk (basename (jsTrim b.2.1)),
                    path := String.mk (jsTrim b.2.1),
                    content := String.mk (jsTrim b.2.2),
                    language := normalizeLanguage b.1 }) := by
  induction l with
  | nil => rfl
  | cons b l ih =>
    by_cases h : jsTrim b.2.1 ≠ [] ∧ jsTrim b.2.2 ≠ []
    · simp [List.filterMap_cons, List.filter_cons, keepBlock, h, ih]
    · simp [List.filterMap_cons, List.filter_cons, keepBlock, h, ih]

/-- Claim C1: for every raw response, the parser extracts exactly one file per
fenced block whose trimmed header path and trimmed interior are both
non-empty, carrying that path, that trimmed content and the normalized
language tag, in block order; every block with an empty path or empty content
is excluded. -/
theorem parser_extracts_exactly_valid_blocks (response : String) :
    parseFilesFromResponse response = parsedFilesSpec response := by
  unfold parseFilesFromResponse parsedFilesSpec
  rw [parseLoop_eq, filterMap_keepBlock]
  simp

example : parseFilesFromResponse "```js:app.js\nconsole.log(1)\n```" =
    [{ name := "app.js", path := "app.js", content := "console.log(1)",
       language := .str "javascript" }] := by decide

example : parseFilesFromResponse "```js\ncode\n```" = [] := by decide

lemma head?_dropWhile_false (p : Char → Bool) :
    ∀ (l : List Char) (c : Char), (l.dropWhile p).head? = some c → p c = false := by
  intro l
  induction l with
  | nil => intro c h; simp [List.dropWhile] at h
  | cons a l ih =>
    intro c h
    by_cases hp : p a
    · rw [List.dropWhile_cons, if_pos hp] at h
      exact ih c h
    · rw [List.dropWhile_cons, if_neg hp] at h
      simp only [List.head?_cons, Option.some.injEq] at h
      rw [← h]
      simpa using hp

lemma getLast?_dropWhile (p : Char → Bool) :
    ∀ (l : List Char) (c : Char),
      (l.dropWhile p).getLast? = some c → l.getLast? = some c := by
  intro l
  induction l with
  | nil => intro c h; simp [List.dropWhile] at h
  | cons a l ih =>
    intro c h
    by_cases hp : p a
    · rw [List.dropWhile_cons, if_pos hp] at h
      have h2 := ih c h
      cases l with
      | nil => simp at h2
      | cons b l2 => rw [List.getLast?_cons_cons]; exact h2
    · rw [List.dropWhile_cons, if_neg hp] at h
      exact h

lemma jsTrim_getLast?_false (l : List Char) (c : Char)
    (h : (jsTrim l).getLast? = some c) : jsWhitespace c = false := by
  unfold jsTrim at h
  rw [List.getLast?_reverse] at h
  exact head?_dropWhile_false _ _ _ h

lemma jsTrim_head?_false (l : List Char) (c : Char)
    (h : (jsTrim l).head? = some c) : jsWhitespace c = false := by
  unfold jsTrim at h
  rw [List.head?_reverse] at h
  have h2 := getLast?_dropWhile _ _ _ h
  rw [List.getLast?_reverse] at h2
  exact head?_dropWhile_false _ _ _ h2

/-- Claim C10: every extracted file stores the trimmed block interior, so its
content never begins or ends with whitespace, and an interior that ends in a
newline is not preserved byte-for-byte. -/
theorem parsed_content_trimmed (response : String) (f : ProjectFile)
    (hf : f ∈ parseFilesFromResponse response) :
    (∃ b ∈ scanBlocks response.data,
        f.content = String.mk (jsTrim b.2.2) ∧
        (b.2.2.getLast? = some '\n' → f.content ≠ String.mk b.2.2)) ∧
    (∀ c, f.content.data.head? = some c → jsWhitespace c = false) ∧
    (∀ c, f.content.data.getLast? = some c → jsWhitespace c = false) := by
  unfold parseFilesFromResponse at hf
  rw [parseLoop_eq] at hf
  simp only [List.nil_append] at hf
  rw [List.mem_filterMap] at hf
  obtain ⟨b, hb, hkeep⟩ := hf
  unfold keepBlock at hkeep
  by_cases h : jsTrim b.2.1 ≠ [] ∧ jsTrim b.2.2 ≠ []
  · rw [if_pos h] at hkeep
    have hf2 := Option.some.inj hkeep
    subst hf2
    refine ⟨⟨b, hb, rfl, ?_⟩, ?_, ?_⟩
    · intro hnl heq
      have hdata : jsTrim b.2.2 = b.2.2 := congrArg String.data heq
      have hws := jsTrim_getLast?_false b.2.2 '\n' (by rw [hdata]; exact hnl)
      simp [jsWhitespace] at hws
    · intro c hc
      exact jsTrim_head?_false _ _ hc
    · intro c hc
      exact jsTrim_getLast?_false _ _ hc
  · rw [if_neg h] at hkeep
    exact absurd hkeep (by simp)

/-- Witness for C10 at the demo response, whose single block has interior
space-h-i-space-newline and extracted content hi. -/
theorem parsed_content_trimmed_witness : jsWhitespace 'h' = false :=
  (parsed_content_trimmed demoResponse
      { name := "a.js", path := "a.js", content := "hi",
        language := .str "javascript" }
      (by decide)).2.1 'h' (by decide)

/-- Claim C4 counterexample: the md tag does not pass through unchanged (it
maps to markdown), normalization is not idempotent at md since markdown itself
normalizes to text, and the tag constructor does not return a tag at all: the
lookup reaches the inherited Object constructor, on which a second
normalization throws. -/
theorem normalizeLanguage_md_not_idempotent :
    normalizeLanguage "md" ≠ .str "md" ∧
    normalizeLanguageVal (normalizeLanguage "md") ≠ .ok (normalizeLanguage "md") ∧
    normalizeLanguage "constructor" = .inheritedObject "constructor" ∧
    normalizeLanguageVal (normalizeLanguage "constructor") = .error "TypeError" := by
  decide

/-- Claim C4 amended: normalization is total and deterministic on strings;
js, ts and py map to their canonical names; json, html and css pass through;
md maps to markdown; the two lowercase inherited Object.prototype properties,
constructor and the proto accessor, return the inherited truthy objects
instead of a string; every other input maps to text; and normalizing the
result again agrees with normalizing once for every input except those whose
lowercase form is md (markdown re-normalizes to text) or one of the two
inherited keys (where the second call throws a TypeError). -/
theorem normalizeLanguage_amended :
    normalizeLanguage "js" = .str "javascript" ∧
    normalizeLanguage "ts" = .str "typescript" ∧
    normalizeLanguage "py" = .str "python" ∧
    normalizeLanguage "json" = .str "json" ∧
    normalizeLanguage "html" = .str "html" ∧
    normalizeLanguage "css" = .str "css" ∧
    normalizeLanguage "md" = .str "markdown" ∧
    normalizeLanguage "constructor" = .inheritedObject "constructor" ∧
    normalizeLanguage "__proto__" = .inheritedObject "__proto__" ∧
    (∀ s : String,
      toLowerAscii s ∉ (["js", "javascript", "ts", "typescript", "py", "python",
        "json", "html", "css", "md", "constructor", "__proto__"] : List String) →
      normalizeLanguage s = .str "text") ∧
    (∀ s : String, toLowerAscii s ≠ "md" → toLowerAscii s ≠ "constructor" →
      toLowerAscii s ≠ "__proto__" →
      normalizeLanguageVal (normalizeLanguage s) = .ok (normalizeLanguage s)) := by
  refine ⟨by decide, by decide, by decide, by decide, by decide, by decide,
    by decide, by decide, by decide, ?_, ?_⟩
  · intro s h
    simp only [List.mem_cons, List.mem_singleton] at h
    push_neg at h
    obtain ⟨h1, h2, h3, h4, h5, h6, h7, h8, h9, h10, h11, h12⟩ := h
    simp [normalizeLanguage, h1, h2, h3, h4, h5, h6, h7, h8, h9, h10, h11, h12]
  · intro s hmd hcons hproto
    by_cases h1 : toLowerAscii s = "js"
    · rw [show normalizeLanguage s = .str "javascript" by
        simp [normalizeLanguage, h1]]
      decide
    by_cases h2 : toLowerAscii s = "javascript"
    · rw [show normalizeLanguage s = .str "javascript" by
        simp [normalizeLanguage, h1, h2]]
      decide
    by_cases h3 : toLowerAscii s = "ts"
    · rw [show normalizeLanguage s = .str "typescript" by
        simp [normalizeLanguage, h1, h2, h3]]
      decide
    by_cases h4 : toLowerAscii s = "typescript"
    · rw [show normalizeLanguage s = .str "typescript" by
        simp [normalizeLanguage, h1, h2, h3, h4]]
      decide
    by_cases h5 : toLowerAscii s = "py"
    · rw [show normalizeLanguage s = .str "python" by
        simp [normalizeLanguage, h1, h2, h3, h4, h5]]
      decide
    by_cases h6 : toLowerAscii s = "python"
    · rw [show normalizeLanguage s = .str "python" by
        simp [normalizeLanguage, h1, h2, h3, h4, h5, h6]]
      decide
    by_cases h7 : toLowerAscii s = "json"
    · rw [show normalizeLanguage s = .str "json" by
        simp [normalizeLanguage, h1, h2, h3, h4, h5, h6, h7]]
      decide
    by_cases h8 : toLowerAscii s = "html"
    · rw [show normalizeLanguage s = .str "html" by
        simp [normalizeLanguage, h1, h2, h3, h4, h5, h6, h7, h8]]
      decide
    by_cases h9 : toLowerAscii s = "css"
    · rw [show normalizeLanguage s = .str "css" by
        simp [normalizeLanguage, h1, h2, h3, h4, h5, h6, h7, h8, h9]]
      decide
    · rw [show normalizeLanguage s = .str "text" by
        simp [normalizeLanguage, h1, h2, h3, h4, h5, h6, h7, h8, h9, hmd,
          hcons, hproto]]
      decide

/-- Witness for C4 amended: the unrecognized tag rust normalizes to text and
re-normalizing the result of the recognized tag JS agrees with normalizing it
once. -/
theorem normalizeLanguage_amended_witness :
    normalizeLanguage "rust" = .str "text" ∧
    normalizeLanguageVal (normalizeLanguage "JS") = .ok (normalizeLanguage "JS") :=
  ⟨normalizeLanguage_amended.2.2.2.2.2.2.2.2.2.1 "rust" (by decide),
   normalizeLanguage_amended.2.2.2.2.2.2.2.2.2.2 "JS" (by decide) (by decide)
     (by decide)⟩

/-! ## Store lemmas and claims C2, C3, C6 -/

lemma find?_append_first (a : List Project) (proj : Project) (b : List Project)
    (projectId : String) (ha : ∀ q ∈ a, q.id ≠ projectId)
    (hp : proj.id = projectId) :
    (a ++ proj :: b).find? (fun p => p.id == projectId) = some proj := by
  induction a with
  | nil => exact List.find?_cons_of_pos _ (by simp [hp])
  | cons q a ih =>
    rw [List.cons_append,
      List.find?_cons_of_neg _ (by simp [ha q (List.mem_cons_self q a)])]
    exact ih (fun r hr => ha r (List.mem_cons_of_mem q hr))

lemma findProject_eq (s : SysState) (projectId : String) (a : List Project)
    (proj : Project) (b : List Project) (hs : s.projects = a ++ proj :: b)
    (ha : ∀ q ∈ a, q.id ≠ projectId) (hp : proj.id = projectId) :
    findProject s projectId = some proj := by
  unfold findProject
  rw [hs]
  exact find?_append_first a proj b projectId ha hp

lemma updateFirstProject_append (a : List Project) (proj : Project)
    (b : List Project) (projectId : String) (f : Project → Project)
    (ha : ∀ q ∈ a, q.id ≠ projectId) (hp : proj.id = projectId) :
    updateFirstProject (a ++ proj :: b) projectId f = a ++ f proj :: b := by
  induction a with
  | nil => simp [updateFirstProject, hp]
  | cons q a ih =>
    have hq : (q.id == projectId) = false := by
      simp [ha q (List.mem_cons_self q a)]
    rw [List.cons_append]
    unfold updateFirstProject
    rw [hq]
    simp only [Bool.false_eq_true, if_false]
    rw [ih (fun r hr => ha r (List.mem_cons_of_mem q hr))]
    rfl

lemma updateFirstProject_twice_status (ps : List Project) (projectId st : String)
    (a : List Project) (proj : Project) (b : List Project)
    (hps : ps = a ++ proj :: b) (ha : ∀ q ∈ a, q.id ≠ projectId)
    (hp : proj.id = projectId) :
    updateFirstProject
        (updateFirstProject ps projectId (fun p => { p with status := st }))
        projectId (fun p => { p with status := st }) =
      updateFirstProject ps projectId (fun p => { p with status := st }) := by
  subst hps
  rw [updateFirstProject_append a proj b projectId _ ha hp]
  rw [updateFirstProject_append a _ b projectId _ ha (by simpa using hp)]

lemma lookupRunning_eq_none (m : List (String × Nat)) (projectId : String)
    (h : projectId ∉ m.map Prod.fst) : lookupRunning m projectId = none := by
  induction m with
  | nil => rfl
  | cons e rest ih =>
    simp only [List.map_cons, List.mem_cons] at h
    push_neg at h
    unfold lookupRunning
    rw [List.find?_cons_of_neg _ (by simp [Ne.symm h.1])]
    exact ih h.2

lemma lookupRunning_removeRunning_self (m : List (String × Nat))
    (projectId : String) (h : (m.map Prod.fst).Nodup) :
    lookupRunning (removeRunning m projectId) projectId = none := by
  induction m with
  | nil => rfl
  | cons e rest ih =>
    rw [List.map_cons, List.nodup_cons] at h
    by_cases he : e.1 = projectId
    · unfold removeRunning
      rw [if_pos (by simp [he])]
      apply lookupRunning_eq_none
      rw [← he]
      exact h.1
    · unfold removeRunning
      rw [if_neg (by simp [he])]
      unfold lookupRunning
      rw [List.find?_cons_of_neg _ (by simp [he])]
      exact ih h.2

/-- Claim C2: the store concatenates the project root, a slash and the raw
relative file path into the on-disk write target, in both createOrUpdateProject
branches and in updateFileContent, rejecting and rewriting nothing (every
input file, dot-dot segments and absolute paths included, produces exactly its
concatenated target, in order); consequently, on concrete inputs whose path
starts with dot-dot, the write target the operations actually produce resolves
outside the projects root. -/
theorem write_targets_not_contained :
    (∀ (s : SysState) (projectId : String) (a : List Project) (proj : Project)
        (b : List Project) (files : List ProjectFile) (prompt newId : String),
      s.projects = a ++ proj :: b → (∀ q ∈ a, q.id ≠ projectId) →
      proj.id = projectId →
      (createOrUpdateProject s files prompt (some projectId) newId).2 =
        files.map (fun f => (proj.path ++ "/" ++ f.path, f.content))) ∧
    (∀ (s : SysState) (files : List ProjectFile) (prompt newId : String),
      (createOrUpdateProject s files prompt none newId).2 =
        files.map (fun f => ("./projects/" ++ newId ++ "/" ++ f.path, f.content))) ∧
    (∀ (s : SysState) (projectId : String) (a : List Project) (proj : Project)
        (b : List Project) (path content : String),
      s.projects = a ++ proj :: b → (∀ q ∈ a, q.id ≠ projectId) →
      proj.id = projectId →
      (updateFileContent s projectId path content).2 =
        .ok (proj.path ++ "/" ++ path, content)) ∧
    escapesDir "./projects" ("./projects/abc" ++ "/" ++ "../../etc/passwd") = true ∧
    ((updateFileContent demoState "p1" "../../etc/passwd" "boom").2 =
        .ok ("./projects/p1/../../etc/passwd", "boom") ∧
      escapesDir "./projects" "./projects/p1/../../etc/passwd" = true) ∧
    (createOrUpdateProject demoState [escFile] "x" (some "p1") "n").2 =
      [("./projects/p1/../../etc/passwd", "boom")] ∧
    ((createOrUpdateProject initState [escFile] "evil" none "n9").2 =
        [("./projects/n9/../../etc/passwd", "boom")] ∧
      escapesDir "./projects" "./projects/n9/../../etc/passwd" = true) ∧
    (updateFileContent demoState "p1" "/etc/passwd" "boom").2 =
      .ok ("./projects/p1//etc/passwd", "boom") := by
  refine ⟨?_, ?_, ?_, by decide, by decide, by decide, by decide, by decide⟩
  · intro s projectId a proj b files prompt newId hs ha hp
    simp only [createOrUpdateProject]
    rw [findProject_eq s projectId a proj b hs ha hp]
  · intro s files prompt newId
    rfl
  · intro s projectId a proj b path content hs ha hp
    simp only [updateFileContent]
    rw [findProject_eq s projectId a proj b hs ha hp]

/-- Witness for C2: updating project p1 with a dot-dot file path writes to the
literal concatenated target below, which escapes the projects root. -/
theorem write_targets_not_contained_witness :
    (createOrUpdateProject demoState [escFile] "x" (some "p1") "n").2 =
      [("./projects/p1/../../etc/passwd", "boom")] ∧
    escapesDir "./projects" "./projects/p1/../../etc/passwd" = true := by
  constructor
  · rw [write_targets_not_contained.1 demoState "p1" [] demoProject []
      [escFile] "x" "n" rfl (by simp) rfl]
    decide
  · decide

/-- Claim C3 (code bug): the delete route removes the project from the
listing, but because it filters the listing before calling stopProject, the
stop call rejects with NotFound (caught and logged) and the running process is
neither signalled nor removed from the runtime registry. -/
theorem delete_leaves_process_running :
    (deleteRoute demoState "p1").projects = [] ∧
    (deleteRoute demoState "p1").running = [("p1", 3001)] ∧
    (deleteRoute demoState "p1").killed = [] := by decide

lemma stopProject_lookup_none (s : SysState) (projectId : String)
    (proj : Project) (hfind : findProject s projectId = some proj)
    (hlook : lookupRunning s.running projectId = none) :
    stopProject s projectId =
      (setStatus s projectId "stopped", .ok "Project stopped") := by
  unfold stopProject
  rw [hfind, hlook]

lemma stopProject_lookup_some (s : SysState) (projectId : String)
    (proj : Project) (procId : Nat)
    (hfind : findProject s projectId = some proj)
    (hlook : lookupRunning s.running projectId = some procId) :
    stopProject s projectId =
      (setStatus (killStep s projectId procId) projectId "stopped",
        .ok "Project stopped") := by
  unfold stopProject killStep
  rw [hfind, hlook]

lemma setStatus_projects_decomp (s : SysState) (projectId st : String)
    (a : List Project) (proj : Project) (b : List Project)
    (hs : s.projects = a ++ proj :: b) (ha : ∀ q ∈ a, q.id ≠ projectId)
    (hp : proj.id = projectId) :
    (setStatus s projectId st).projects = a ++ { proj with status := st } :: b := by
  show updateFirstProject s.projects projectId _ = _
  rw [hs]
  exact updateFirstProject_append a proj b projectId _ ha hp

lemma setStatus_again (s : SysState) (projectId st : String)
    (a : List Project) (proj : Project) (b : List Project)
    (hs : s.projects = a ++ proj :: b) (ha : ∀ q ∈ a, q.id ≠ projectId)
    (hp : proj.id = projectId) :
    setStatus (setStatus s projectId st) projectId st =
      setStatus s projectId st := by
  unfold setStatus
  congr 1
  exact updateFirstProject_twice_status s.projects projectId st a proj b hs ha hp

/-- Claim C6: stopping any project present in the listing succeeds without
throwing, leaves its status stopped whether or not a process was registered,
and a second stop returns the exact same state. -/
theorem stopProject_idempotent_sets_stopped
    (s : SysState) (projectId : String) (a : List Project) (proj : Project)
    (b : List Project)
    (hs : s.projects = a ++ proj :: b) (ha : ∀ q ∈ a, q.id ≠ projectId)
    (hp : proj.id = projectId)
    (hkeys : (s.running.map Prod.fst).Nodup) :
    ∃ s1, stopProject s projectId = (s1, .ok "Project stopped") ∧
      statusOf s1 projectId = some "stopped" ∧
      stopProject s1 projectId = (s1, .ok "Project stopped") := by
  have hfind := findProject_eq s projectId a proj b hs ha hp
  cases hlook : lookupRunning s.running projectId with
  | none =>
    refine ⟨setStatus s projectId "stopped",
      stopProject_lookup_none s projectId proj hfind hlook, ?_, ?_⟩
    · unfold statusOf
      rw [findProject_eq (setStatus s projectId "stopped") projectId a
        ({ proj with status := "stopped" }) b
        (setStatus_projects_decomp s projectId "stopped" a proj b hs ha hp)
        ha (by simpa using hp)]
      rfl
    · have h3 := stopProject_lookup_none (setStatus s projectId "stopped")
        projectId ({ proj with status := "stopped" })
        (findProject_eq _ projectId a _ b
          (setStatus_projects_decomp s projectId "stopped" a proj b hs ha hp)
          ha (by simpa using hp))
        hlook
      rw [setStatus_again s projectId "stopped" a proj b hs ha hp] at h3
      exact h3
  | some procId =>
    refine ⟨setStatus (killStep s projectId procId) projectId "stopped",
      stopProject_lookup_some s projectId proj procId hfind hlook, ?_, ?_⟩
    · unfold statusOf
      rw [findProject_eq (setStatus (killStep s projectId procId) projectId "stopped")
        projectId a ({ proj with status := "stopped" }) b
        (setStatus_projects_decomp (killStep s projectId procId) projectId "stopped"
          a proj b hs ha hp)
        ha (by simpa using hp)]
      rfl
    · have h3 := stopProject_lookup_none
        (setStatus (killStep s projectId procId) projectId "stopped")
        projectId ({ proj with status := "stopped" })
        (findProject_eq (setStatus (killStep s projectId procId) projectId "stopped")
          projectId a _ b
          (setStatus_projects_decomp (killStep s projectId procId) projectId "stopped"
            a proj b hs ha hp)
          ha (by simpa using hp))
        (lookupRunning_removeRunning_self s.running projectId hkeys)
      rw [setStatus_again (killStep s projectId procId) projectId "stopped"
        a proj b hs ha hp] at h3
      exact h3

/-- Witness for C6: stopping the running demo project yields status stopped. -/
theorem stopProject_idempotent_sets_stopped_witness :
    statusOf (stopProject demoState "p1").1 "p1" = some "stopped" := by
  obtain ⟨s1, h1, h2, h3⟩ := stopProject_idempotent_sets_stopped demoState "p1"
    [] demoProject [] rfl (by simp) rfl (by decide)
  rw [h1]
  exact h2

/-! ## Upsert lemmas and claim C5 -/

lemma mem_paths_upsertFile (fs : List ProjectFile) (nf : ProjectFile) (x : String)
    (hx : x ∈ (upsertFile fs nf).map (fun f => f.path)) :
    x ∈ fs.map (fun f => f.path) ∨ x = nf.path := by
  induction fs with
  | nil =>
    simp [upsertFile] at hx
    exact Or.inr hx
  | cons f fs ih =>
    simp only [List.map_cons, List.mem_cons]
    by_cases h : f.path == nf.path
    · rw [upsertFile, if_pos h] at hx
      simp only [List.map_cons, List.mem_cons] at hx
      rcases hx with hx | hx
      · exact Or.inr hx
      · exact Or.inl (Or.inr hx)
    · rw [upsertFile, if_neg h] at hx
      simp only [List.map_cons, List.mem_cons] at hx
      rcases hx with hx | hx
      · exact Or.inl (Or.inl hx)
      · rcases ih hx with hm | hm
        · exact Or.inl (Or.inr hm)
        · exact Or.inr hm

lemma paths_nodup_upsertFile (fs : List ProjectFile) (nf : ProjectFile)
    (h : (fs.map (fun f => f.path)).Nodup) :
    ((upsertFile fs nf).map (fun f => f.path)).Nodup := by
  induction fs with
  | nil => simp [upsertFile]
  | cons f fs ih =>
    rw [List.map_cons, List.nodup_cons] at h
    by_cases hq : f.path == nf.path
    · have heq : f.path = nf.path := by simpa using hq
      rw [upsertFile, if_pos hq, List.map_cons, List.nodup_cons]
      exact ⟨by rw [← heq]; exact h.1, h.2⟩
    · rw [upsertFile, if_neg hq, List.map_cons, List.nodup_cons]
      constructor
      · intro hmem
        rcases mem_paths_upsertFile fs nf f.path hmem with hm | hm
        · exact h.1 hm
        · have hne : f.path ≠ nf.path := by simpa using hq
          exact hne hm
      · exact ih h.2

lemma paths_nodup_foldl_upsert (nfs : List ProjectFile) :
    ∀ fs, (fs.map (fun f => f.path)).Nodup →
      ((nfs.foldl upsertFile fs).map (fun f => f.path)).Nodup := by
  induction nfs with
  | nil => intro fs h; simpa [List.foldl] using h
  | cons nf nfs ih =>
    intro fs h
    rw [List.foldl_cons]
    exact ih _ (paths_nodup_upsertFile fs nf h)

lemma upsertFile_not_mem (fs : List ProjectFile) (nf : ProjectFile)
    (h : ∀ q ∈ fs, q.path ≠ nf.path) :
    upsertFile fs nf = fs ++ [nf] := by
  induction fs with
  | nil => rfl
  | cons q fs ih =>
    have hq : (q.path == nf.path) = false := by
      simp [h q (List.mem_cons_self q fs)]
    unfold upsertFile
    rw [hq]
    simp only [Bool.false_eq_true, if_false]
    rw [ih (fun r hr => h r (List.mem_cons_of_mem q hr))]
    rfl

lemma upsertFile_append (fa : List ProjectFile) (g : ProjectFile)
    (fb : List ProjectFile) (nf : ProjectFile)
    (hfa : ∀ q ∈ fa, q.path ≠ nf.path) (hg : g.path = nf.path) :
    upsertFile (fa ++ g :: fb) nf = fa ++ nf :: fb := by
  induction fa with
  | nil => simp [upsertFile, hg]
  | cons q fa ih =>
    have hq : (q.path == nf.path) = false := by
      simp [hfa q (List.mem_cons_self q fa)]
    rw [List.cons_append]
    unfold upsertFile
    rw [hq]
    simp only [Bool.false_eq_true, if_false]
    rw [ih (fun r hr => hfa r (List.mem_cons_of_mem q hr))]
    rfl

/-- Claim C5 counterexample: creating a new project from a parsed list with a
repeated path stores both entries, so the no-duplicate-paths invariant fails
on the creation branch. -/
theorem create_keeps_duplicate_paths :
    ¬ (∀ p ∈ ((createOrUpdateProject initState
          [{ name := "a", path := "dup", content := "1", language := .str "text" },
           { name := "b", path := "dup", content := "2", language := .str "text" }]
          "x" none "n1").1).projects,
        (p.files.map (fun f => f.path)).Nodup) := by
  decide

/-- Claim C5 amended: on the update branch, upserting preserves the
no-duplicate-paths invariant, replacing an existing path in place and
appending a new path without removing or reordering existing entries; on the
creation branch the project stores the input file list verbatim, so the
invariant holds only when the input has distinct paths. -/
theorem upsert_preserves_path_nodup :
    (∀ (fs nfs : List ProjectFile),
      (fs.map (fun f => f.path)).Nodup →
      ((nfs.foldl upsertFile fs).map (fun f => f.path)).Nodup) ∧
    (∀ (fs : List ProjectFile) (nf : ProjectFile),
      (∀ q ∈ fs, q.path ≠ nf.path) → upsertFile fs nf = fs ++ [nf]) ∧
    (∀ (fa : List ProjectFile) (g : ProjectFile) (fb : List ProjectFile)
        (nf : ProjectFile),
      (∀ q ∈ fa, q.path ≠ nf.path) → g.path = nf.path →
      upsertFile (fa ++ g :: fb) nf = fa ++ nf :: fb) ∧
    (∀ (s : SysState) (projectId : String) (a : List Project) (proj : Project)
        (b : List Project) (files : List ProjectFile) (prompt newId : String),
      s.projects = a ++ proj :: b → (∀ q ∈ a, q.id ≠ projectId) →
      proj.id = projectId →
      ((createOrUpdateProject s files prompt (some projectId) newId).1).projects =
        a ++ { proj with files := files.foldl upsertFile proj.files } :: b) ∧
    (∀ (s : SysState) (files : List ProjectFile) (prompt newId : String),
      ∃ proj, ((createOrUpdateProject s files prompt none newId).1).projects =
        proj :: s.projects ∧ proj.files = files) := by
  refine ⟨fun fs nfs h => paths_nodup_foldl_upsert nfs fs h,
    fun fs nf h => upsertFile_not_mem fs nf h,
    fun fa g fb nf hfa hg => upsertFile_append fa g fb nf hfa hg, ?_, ?_⟩
  · intro s projectId a proj b files prompt newId hs ha hp
    simp only [createOrUpdateProject]
    rw [findProject_eq s projectId a proj b hs ha hp]
    show updateFirstProject s.projects projectId _ = _
    rw [hs]
    exact updateFirstProject_append a proj b projectId _ ha hp
  · intro s files prompt newId
    exact ⟨_, rfl, rfl⟩

/-- Witness for C5 amended: upserting two fresh paths into the demo file list
keeps its paths duplicate-free. -/
theorem upsert_preserves_path_nodup_witness :
    ((([{ name := "b", path := "index.js", content := "new",
          language := .str "javascript" },
        { name := "c", path := "app.js", content := "x",
          language := .str "javascript" }]).foldl
        upsertFile demoProject.files).map (fun f => f.path)).Nodup :=
  upsert_preserves_path_nodup.1 demoProject.files
    [{ name := "b", path := "index.js", content := "new",
       language := .str "javascript" },
     { name := "c", path := "app.js", content := "x",
       language := .str "javascript" }]
    (by decide)

/-! ## Build state machine, claim C7 -/

lemma statusOf_setStatus_setStatus (s : SysState) (projectId st1 st2 : String)
    (a : List Project) (proj : Project) (b : List Project)
    (hs : s.projects = a ++ proj :: b) (ha : ∀ q ∈ a, q.id ≠ projectId)
    (hp : proj.id = projectId) :
    statusOf (setStatus (setStatus s projectId st1) projectId st2) projectId =
      some st2 := by
  have hdec : (setStatus (setStatus s projectId st1) projectId st2).projects =
      a ++ { proj with status := st2 } :: b :=
    setStatus_projects_decomp (setStatus s projectId st1) projectId st2 a
      ({ proj with status := st1 }) b
      (setStatus_projects_decomp s projectId st1 a proj b hs ha hp)
      ha (by simpa using hp)
  unfold statusOf
  rw [findProject_eq (setStatus (setStatus s projectId st1) projectId st2)
    projectId a ({ proj with status := st2 }) b hdec ha (by simpa using hp)]
  rfl

/-- Claim C7: for a present project, buildProject first sets status building
and ends with status created and a normal return on success, or status error
and a thrown error on failure; for an absent id it throws NotFound leaving the
whole state unchanged. -/
theorem buildProject_state_machine :
    (∀ (s : SysState) (projectId : String) (outcome : BuildOutcome),
      findProject s projectId = none →
      buildProject s projectId outcome = (s, [], .error "Project not found")) ∧
    (∀ (s : SysState) (projectId : String) (a : List Project) (proj : Project)
        (b : List Project) (out msg : String),
      s.projects = a ++ proj :: b → (∀ q ∈ a, q.id ≠ projectId) →
      proj.id = projectId →
      ((buildProject s projectId (.success out)).2.1 = ["building", "created"] ∧
       statusOf (buildProject s projectId (.success out)).1 projectId =
         some "created" ∧
       (∃ o, (buildProject s projectId (.success out)).2.2 = .ok o)) ∧
      ((buildProject s projectId (.failure msg)).2.1 = ["building", "error"] ∧
       statusOf (buildProject s projectId (.failure msg)).1 projectId =
         some "error" ∧
       (buildProject s projectId (.failure msg)).2.2 = .error msg)) := by
  constructor
  · intro s projectId outcome h
    unfold buildProject
    rw [h]
  · intro s projectId a proj b out msg hs ha hp
    have hfind := findProject_eq s projectId a proj b hs ha hp
    have hbs : buildProject s projectId (.success out) =
        (setStatus (setStatus s projectId "building") projectId "created",
          ["building", "created"],
          .ok (if out = "" then "Build completed (no dependencies to install)"
               else out)) := by
      unfold buildProject
      rw [hfind]
    have hbf : buildProject s projectId (.failure msg) =
        (setStatus (setStatus s projectId "building") projectId "error",
          ["building", "error"], .error msg) := by
      unfold buildProject
      rw [hfind]
    rw [hbs, hbf]
    exact ⟨⟨rfl, statusOf_setStatus_setStatus s projectId "building" "created"
        a proj b hs ha hp, ⟨_, rfl⟩⟩,
      ⟨rfl, statusOf_setStatus_setStatus s projectId "building" "error"
        a proj b hs ha hp, rfl⟩⟩

/-- Witness for C7: building the demo project with a successful install ends
with status created. -/
theorem buildProject_state_machine_witness :
    statusOf (buildProject demoState "p1" (.success "ok")).1 "p1" =
      some "created" :=
  ((buildProject_state_machine.2 demoState "p1" [] demoProject [] "ok" "m"
    rfl (by simp) rfl).1).2.1

/-! ## File update frame, claim C9 -/

lemma setFirstContent_not_mem (fs : List ProjectFile) (path content : String)
    (h : ∀ q ∈ fs, q.path ≠ path) :
    updateFileContent.setFirstContent fs path content = fs := by
  induction fs with
  | nil => rfl
  | cons q fs ih =>
    have hq : (q.path == path) = false := by
      simp [h q (List.mem_cons_self q fs)]
    unfold updateFileContent.setFirstContent
    rw [hq]
    simp only [Bool.false_eq_true, if_false]
    rw [ih (fun r hr => h r (List.mem_cons_of_mem q hr))]

lemma setFirstContent_append (fa : List ProjectFile) (g : ProjectFile)
    (fb : List ProjectFile) (path content : String)
    (hfa : ∀ q ∈ fa, q.path ≠ path) (hg : g.path = path) :
    updateFileContent.setFirstContent (fa ++ g :: fb) path content =
      fa ++ { g with content := content } :: fb := by
  induction fa with
  | nil => simp [updateFileContent.setFirstContent, hg]
  | cons q fa ih =>
    have hq : (q.path == path) = false := by
      simp [hfa q (List.mem_cons_self q fa)]
    rw [List.cons_append]
    unfold updateFileContent.setFirstContent
    rw [hq]
    simp only [Bool.false_eq_true, if_false]
    rw [ih (fun r hr => hfa r (List.mem_cons_of_mem q hr))]
    rfl

/-- Claim C9: updateFileContent throws NotFound when the project is absent;
otherwise it returns the on-disk write at the concatenated target and, in
memory, changes only the content field of the first tracked file whose path
matches, leaves the file list completely unchanged when no entry matches, and
changes no other project field and no other part of the state. -/
theorem updateFileContent_frame :
    (∀ (s : SysState) (projectId filePath content : String),
      findProject s projectId = none →
      updateFileContent s projectId filePath content =
        (s, .error "Project not found")) ∧
    (∀ (s : SysState) (projectId filePath content : String) (a : List Project)
        (proj : Project) (b : List Project),
      s.projects = a ++ proj :: b → (∀ q ∈ a, q.id ≠ projectId) →
      proj.id = projectId →
      (updateFileContent s projectId filePath content).2 =
          .ok (proj.path ++ "/" ++ filePath, content) ∧
      ((updateFileContent s projectId filePath content).1).projects =
          a ++ { proj with files :=
            updateFileContent.setFirstContent proj.files filePath content } :: b ∧
      ((updateFileContent s projectId filePath content).1).running = s.running ∧
      ((updateFileContent s projectId filePath content).1).killed = s.killed ∧
      ((updateFileContent s projectId filePath content).1).nextPort = s.nextPort ∧
      ((∀ q ∈ proj.files, q.path ≠ filePath) →
        updateFileContent.setFirstContent proj.files filePath content =
          proj.files) ∧
      (∀ (fa : List ProjectFile) (g : ProjectFile) (fb : List ProjectFile),
        proj.files = fa ++ g :: fb → (∀ q ∈ fa, q.path ≠ filePath) →
        g.path = filePath →
        updateFileContent.setFirstContent proj.files filePath content =
          fa ++ { g with content := content } :: fb)) := by
  constructor
  · intro s projectId filePath content h
    unfold updateFileContent
    rw [h]
  · intro s projectId filePath content a proj b hs ha hp
    have hfind := findProject_eq s projectId a proj b hs ha hp
    have hupd : updateFileContent s projectId filePath content =
        ({ s with projects := (updateFirstProject s.projects projectId
            (fun p => { p with files :=
              updateFileContent.setFirstContent p.files filePath content })) },
          .ok (proj.path ++ "/" ++ filePath, content)) := by
      unfold updateFileContent
      rw [hfind]
    rw [hupd]
    refine ⟨rfl, ?_, rfl, rfl, rfl, ?_, ?_⟩
    · show updateFirstProject s.projects projectId _ = _
      rw [hs]
      exact updateFirstProject_append a proj b projectId _ ha hp
    · intro h
      exact setFirstContent_not_mem proj.files filePath content h
    · intro fa g fb hf hfa hg
      rw [hf]
      exact setFirstContent_append fa g fb filePath content hfa hg

/-- Witness for C9: updating the tracked demo file writes to the concatenated
target below. -/
theorem updateFileContent_frame_witness :
    (updateFileContent demoState "p1" "index.js" "new").2 =
      .ok ("./projects/p1/index.js", "new") :=
  ((updateFileContent_frame.2 demoState "p1" "index.js" "new" [] demoProject []
    rfl (by simp) rfl)).1

/-! ## Port monotonicity, claim C8 -/

@[simp] lemma setStatus_nextPort (s : SysState) (projectId st : String) :
    (setStatus s projectId st).nextPort = s.nextPort := rfl

@[simp] lemma setPort_nextPort (s : SysState) (projectId : String)
    (port : Option Nat) : (setPort s projectId port).nextPort = s.nextPort := rfl

@[simp] lemma setLastOutput_nextPort (s : SysState) (projectId : String)
    (out : Option String) :
    (setLastOutput s projectId out).nextPort = s.nextPort := rfl

lemma stopProject_nextPort (s : SysState) (projectId : String) :
    (stopProject s projectId).1.nextPort = s.nextPort := by
  unfold stopProject
  cases h : findProject s projectId with
  | none => rfl
  | some proj =>
    cases hl : lookupRunning s.running projectId with
    | none => rfl
    | some procId => rfl

lemma createOrUpdateProject_nextPort (s : SysState) (files : List ProjectFile)
    (prompt : String) (existingId : Option String) (newId : String) :
    (createOrUpdateProject s files prompt existingId newId).1.nextPort =
      s.nextPort := by
  cases existingId with
  | none => rfl
  | some projectId =>
    cases h : findProject s projectId with
    | none =>
      simp only [createOrUpdateProject]
      rw [h]
    | some proj =>
      simp only [createOrUpdateProject]
      rw [h]

lemma buildProject_nextPort (s : SysState) (projectId : String)
    (outcome : BuildOutcome) :
    (buildProject s projectId outcome).1.nextPort = s.nextPort := by
  unfold buildProject
  cases h : findProject s projectId with
  | none => rfl
  | some proj => cases outcome <;> rfl

lemma updateFileContent_nextPort (s : SysState) (projectId path content : String) :
    (updateFileContent s projectId path content).1.nextPort = s.nextPort := by
  unfold updateFileContent
  cases h : findProject s projectId with
  | none => rfl
  | some proj => rfl

lemma deleteRoute_nextPort (s : SysState) (projectId : String) :
    (deleteRoute s projectId).nextPort = s.nextPort := by
  unfold deleteRoute
  exact stopProject_nextPort _ projectId

lemma step_ports (s : SysState) (op : Op) :
    ((step s op).2 = [] ∧ (step s op).1.nextPort = s.nextPort) ∨
    ((step s op).2 = [s.nextPort] ∧ (step s op).1.nextPort = s.nextPort + 1) := by
  cases op with
  | create newId files prompt =>
    exact Or.inl ⟨rfl, createOrUpdateProject_nextPort s files prompt none newId⟩
  | update projectId files prompt =>
    exact Or.inl ⟨rfl,
      createOrUpdateProject_nextPort s files prompt (some projectId) projectId⟩
  | stop projectId => exact Or.inl ⟨rfl, stopProject_nextPort s projectId⟩
  | build projectId outcome =>
    exact Or.inl ⟨rfl, buildProject_nextPort s projectId outcome⟩
  | del projectId => exact Or.inl ⟨rfl, deleteRoute_nextPort s projectId⟩
  | putFile projectId path content =>
    exact Or.inl ⟨rfl, updateFileContent_nextPort s projectId path content⟩
  | run projectId hasPkg spawnOk =>
    cases hfind : findProject s projectId with
    | none =>
      left
      constructor
      · show (runProject s projectId hasPkg spawnOk).2.1 = []
        unfold runProject
        rw [hfind]
      · show (runProject s projectId hasPkg spawnOk).1.nextPort = s.nextPort
        unfold runProject
        rw [hfind]
    | some proj =>
      right
      have hs0 : (if (lookupRunning s.running projectId).isSome
          then (stopProject s projectId).1 else s).nextPort = s.nextPort := by
        split
        · exact stopProject_nextPort s projectId
        · rfl
      constructor
      · show (runProject s projectId hasPkg spawnOk).2.1 = [s.nextPort]
        simp only [runProject, hfind]
        cases spawnOk <;> simp [hs0]
      · show (runProject s projectId hasPkg spawnOk).1.nextPort = s.nextPort + 1
        simp only [runProject, hfind]
        cases spawnOk <;> simp [hs0]

lemma runOpsAux_increasing (ops : List Op) :
    ∀ (s : SysState) (acc : List Nat), acc.Pairwise (· < ·) →
      (∀ p ∈ acc, p < s.nextPort) →
      ((runOpsAux s ops acc).2.Pairwise (· < ·) ∧
        ∀ p ∈ (runOpsAux s ops acc).2, p < (runOpsAux s ops acc).1.nextPort) := by
  induction ops with
  | nil =>
    intro s acc h1 h2
    exact ⟨h1, h2⟩
  | cons op ops ih =>
    intro s acc h1 h2
    show (runOpsAux (step s op).1 ops (acc ++ (step s op).2)).2.Pairwise (· < ·) ∧
      ∀ p ∈ (runOpsAux (step s op).1 ops (acc ++ (step s op).2)).2,
        p < (runOpsAux (step s op).1 ops (acc ++ (step s op).2)).1.nextPort
    rcases step_ports s op with ⟨he, hn⟩ | ⟨he, hn⟩
    · rw [he]
      rw [List.append_nil]
      exact ih (step s op).1 acc h1 (fun p hp => by rw [hn]; exact h2 p hp)
    · rw [he]
      apply ih
      · rw [List.pairwise_append]
        refine ⟨h1, List.pairwise_singleton _ _, ?_⟩
        intro p hp q hq
        simp only [List.mem_singleton] at hq
        subst hq
        exact h2 p hp
      · intro p hp
        rw [List.mem_append] at hp
        rw [hn]
        rcases hp with hp | hp
        · exact Nat.lt_succ_of_lt (h2 p hp)
        · simp only [List.mem_singleton] at hp
          subst hp
          exact Nat.lt_succ_self _

/-- Claim C8: over any request sequence from the initial state, the
chronological list of assigned ports is strictly increasing, hence no port is
ever assigned twice, across deletions and re-creations included. -/
theorem assigned_ports_strictly_increase (ops : List Op) :
    ((runOps initState ops).2).Pairwise (· < ·) ∧
      ((runOps initState ops).2).Nodup := by
  have h := runOpsAux_increasing ops initState [] List.Pairwise.nil
    (by intro p hp; simp at hp)
  exact ⟨h.1, List.Pairwise.imp (fun hlt => Nat.ne_of_lt hlt) h.1⟩

end AgentModel
